import Mathlib

/-!
Verification development for the `instruments/named_struct.py` module: a
declarative C-style binary structure engine.  The Python module is embedded
shallowly: fields, format strings, the CPython `struct` module's native-mode
packing and unpacking semantics (x86-64 Linux: little endian, natural
alignment, `long` of 8 bytes), the descriptor-based get/set protocol, the
metaclass field-collection step, construction, equality, packing and
unpacking of `NamedStruct` instances.
-/

set_option maxRecDepth 4000

namespace NS

/-- A Python value as stored in a `NamedStruct` instance's `_values`
ordered dictionary.  Text (`str`) is modelled as its list of code points,
`bytes` objects as lists of byte values, and a Python `float` by the
64-bit pattern of its IEEE-754 binary64 representation (CPython floats
are C doubles); `none` models Python `None`, the unset sentinel used by
`NamedStruct.__init__`.  Object identity is not modelled: two values
compare by `==` alone, which matches Python comparisons of distinct
objects (in particular a NaN unpacked from a buffer is a fresh object
and compares unequal to every float, itself included). -/
inductive PyVal : Type
  | none : PyVal
  | int : Int → PyVal
  | bool : Bool → PyVal
  | bytes : List Nat → PyVal
  | str : List Nat → PyVal
  | float : Nat → PyVal
deriving DecidableEq

/-- Kinds of Python exceptions the embedded code can raise:
`TypeError`, `ValueError`, `struct.error`, `OverflowError`,
`UnicodeDecodeError` or `UnicodeEncodeError`. -/
inductive Err : Type
  | typeError : Err
  | valueError : Err
  | structError : Err
  | overflowError : Err
  | unicodeError : Err
deriving DecidableEq

deriving instance DecidableEq for Except

/-- One `Field` descriptor of `named_struct.py`.  `fmt` is the
`struct`-module format string (`Field.__init__` stores `fmt.strip()`),
`birthday` is the value of the global `Field.__n_fields_created` counter
recorded at creation time, `name` is the attribute name bound by the
`HasFields` metaclass, `isString` records whether the object is a
`StringField` (whose encoding is `ascii`, the only encoding the repo
uses), and `strip_null` is the null-stripping flag. -/
structure Field : Type where
  fmt : List Char
  name : String
  birthday : Nat
  isString : Bool
  strip_null : Bool
deriving DecidableEq

/-- Last character of a format string (`self._fmt[-1]`); a blank for the
empty string, which no real field has. -/
def lastChar (fmt : List Char) : Char := fmt.getLastD ' '

/-- `Field.is_significant`: true iff the format string does not end in
`x`, the `struct` padding code. -/
def is_significant (f : Field) : Bool := ! (lastChar f.fmt == 'x')

/-- Numeric value of a digit string. -/
def digitsVal (ds : List Char) : Nat := ds.foldl (fun n c => 10 * n + (c.toNat - 48)) 0

/-- Repeat count of a `struct` format item: its leading decimal digits,
defaulting to 1 when absent. -/
def fmtRepeat (fmt : List Char) : Nat :=
  let ds := fmt.takeWhile Char.isDigit
  if ds.isEmpty then 1 else digitsVal ds

/-- Byte width of a scalar format character in CPython `struct` native
mode on x86-64 Linux: `h`/`H` 2, `i`/`I`/`f` 4, `l`/`L`/`q`/`Q`/`d`/`P`
8, the one-byte codes (`c`, `b`, `B`, `?`) 1. -/
def scalarSize (c : Char) : Nat :=
  if c = 'h' ∨ c = 'H' then 2
  else if c = 'i' ∨ c = 'I' ∨ c = 'f' then 4
  else if c = 'l' ∨ c = 'L' ∨ c = 'q' ∨ c = 'Q' ∨ c = 'd' ∨ c = 'P' then 8
  else 1

/-- Native-mode alignment requirement of a format item: byte runs and
padding align on 1, scalars on their own size — 2 for `h`/`H`, 4 for
`i`/`I`/`f`, 8 for `l`/`L`/`q`/`Q`/`d`/`P`, 1 for the one-byte codes
(x86-64 ABI). -/
def itemAlign (fmt : List Char) : Nat :=
  let c := lastChar fmt
  if c = 's' ∨ c = 'x' then 1 else scalarSize c

/-- Byte width of one format item: the count for byte runs (`s`) and
padding (`x`), and the repeat count times the scalar size otherwise
(`struct` reads a digit prefix on a scalar code as a repeat count). -/
def itemSize (fmt : List Char) : Nat :=
  let c := lastChar fmt
  if c = 's' ∨ c = 'x' then fmtRepeat fmt else fmtRepeat fmt * scalarSize c

/-- Format characters `struct` supports that the spec lists: booleans,
8/16/32/64-bit signed and unsigned integers, 32/64-bit floats,
fixed-length byte runs, single raw bytes, the pointer-width placeholder
and fixed padding. -/
def validFmtChar (c : Char) : Bool :=
  c = 'x' ∨ c = 'c' ∨ c = 'b' ∨ c = 'B' ∨ c = '?' ∨ c = 'h' ∨ c = 'H' ∨
  c = 'i' ∨ c = 'I' ∨ c = 'l' ∨ c = 'L' ∨ c = 'q' ∨ c = 'Q' ∨ c = 'f' ∨
  c = 'd' ∨ c = 's' ∨ c = 'P'

/-- A format string for one field as the spec's structure definitions
use them: an optional decimal count followed by a supported format
character, with counts only on byte runs and padding (the spec's
fixed-length byte run of length N and fixed N-byte padding; scalar
fields carry a bare code). -/
def validFmt (fmt : List Char) : Bool :=
  let ds := fmt.takeWhile Char.isDigit
  let rest := fmt.dropWhile Char.isDigit
  match rest with
  | [c] => validFmtChar c && (ds.isEmpty || (c = 's' ∨ c = 'x'))
  | _ => false

/-- Padding bytes CPython `struct` inserts before an item of alignment
`n` when the current offset is `off`. -/
def alignPad (off n : Nat) : Nat := (n - off % n) % n

/-- Signed integer format characters. -/
def isSignedChar (c : Char) : Bool := c = 'b' ∨ c = 'h' ∨ c = 'i' ∨ c = 'l' ∨ c = 'q'

/-- Format characters packed through `struct`'s integer path, the
pointer-width placeholder `P` included (CPython converts its argument
through `PyLong_AsVoidPtr`). -/
def isIntChar (c : Char) : Bool :=
  isSignedChar c ∨ c = 'B' ∨ c = 'H' ∨ c = 'I' ∨ c = 'L' ∨ c = 'Q' ∨ c = 'P'

/-- Smallest integer `struct.pack` accepts for an integer format
character.  `P` is special: `PyLong_AsVoidPtr` routes negative inputs
through a signed 64-bit conversion, so `P` accepts down to `-2^63`
(packing the two's-complement pattern) although it unpacks unsigned. -/
def intLo (c : Char) : Int :=
  if c = 'P' then -(2 ^ 63)
  else if isSignedChar c then -(2 ^ (8 * scalarSize c - 1)) else 0

/-- Largest integer `struct.pack` accepts for an integer format
character. -/
def intHi (c : Char) : Int :=
  if isSignedChar c then 2 ^ (8 * scalarSize c - 1) - 1 else 2 ^ (8 * scalarSize c) - 1

/-- Little-endian encoding of a natural number on `w` bytes. -/
def natToLE : Nat → Nat → List Nat
  | 0, _ => []
  | w + 1, n => n % 256 :: natToLE w (n / 256)

/-- Value of a little-endian byte list. -/
def leToNat : List Nat → Nat
  | [] => 0
  | b :: bs => b + 256 * leToNat bs

/-- Two's-complement reading of a `w`-byte little-endian buffer. -/
def decodeSLE (w : Nat) (bs : List Nat) : Int :=
  let u := leToNat bs
  if u < 2 ^ (8 * w - 1) then (u : Int) else (u : Int) - 2 ^ (8 * w)

/- ### IEEE-754 bit-pattern arithmetic

Python floats are C doubles; `struct`'s `d` code stores the 8 raw bytes
of the double and `f` converts to IEEE binary32 (round to nearest, ties
to even) before storing 4 bytes.  Patterns with `eb` exponent bits and
`mb` mantissa bits are handled as plain naturals. -/

/-- Sign bit of an IEEE pattern. -/
def ieeeSign (eb mb bits : Nat) : Nat := bits / 2 ^ (eb + mb) % 2

/-- Biased exponent field of an IEEE pattern. -/
def ieeeExp (eb mb bits : Nat) : Nat := bits / 2 ^ mb % 2 ^ eb

/-- Mantissa (fraction) field of an IEEE pattern. -/
def ieeeFrac (mb bits : Nat) : Nat := bits % 2 ^ mb

/-- NaN: exponent all ones with nonzero fraction. -/
def isNaN (eb mb bits : Nat) : Bool :=
  ieeeExp eb mb bits = 2 ^ eb - 1 ∧ ieeeFrac mb bits ≠ 0

/-- Infinity: exponent all ones with zero fraction. -/
def isInf (eb mb bits : Nat) : Bool :=
  ieeeExp eb mb bits = 2 ^ eb - 1 ∧ ieeeFrac mb bits = 0

/-- Positive or negative zero. -/
def isZeroF (eb mb bits : Nat) : Bool :=
  ieeeExp eb mb bits = 0 ∧ ieeeFrac mb bits = 0

/-- Decomposition of a finite IEEE pattern: the pair `(M, E)` with value
`M * 2^E` (sign kept separately); subnormals have `M = frac`, normals
the implicit leading bit. -/
def finiteParts (eb mb bits : Nat) : Nat × Int :=
  let e := ieeeExp eb mb bits
  let m := ieeeFrac mb bits
  let bias : Int := (2 : Int) ^ (eb - 1) - 1
  if e = 0 then (m, 1 - bias - mb) else (2 ^ mb + m, (e : Int) - bias - mb)

/-- Number of bits of a natural number, computed with explicit fuel so
that it reduces inside the kernel; the fuel 2200 exceeds every exponent
a double conversion can meet, and saturation beyond it still lands in
the overflow branch of the encoder. -/
def bitLenAux : Nat → Nat → Nat
  | 0, _ => 0
  | fuel + 1, n => if n = 0 then 0 else bitLenAux fuel (n / 2) + 1

/-- Bit length with saturating fuel (see `bitLenAux`). -/
def bitLen (n : Nat) : Nat := bitLenAux 2200 n

/-- Round the positive value `M * 2^E` (`M > 0`) to the nearest IEEE
value with `eb` exponent bits and `mb` mantissa bits, ties to even, and
encode it with sign `s`; a finite value that would round beyond the
largest finite value raises `OverflowError`, exactly as CPython's float
packing and int-to-float conversion do rather than producing an
infinity. -/
def encodeFinite (eb mb : Nat) (s : Bool) (M : Nat) (E : Int) : Except Err Nat :=
  let bias : Int := (2 : Int) ^ (eb - 1) - 1
  let k : Nat := bitLen M - 1
  let P : Int := E + k
  let g : Int := max (P - mb) (1 - bias - mb)
  let shift : Int := g - E
  let q : Nat := if shift ≤ 0 then M * 2 ^ (-shift).toNat else M / 2 ^ shift.toNat
  let r : Nat := if shift ≤ 0 then 0 else M % 2 ^ shift.toNat
  let half : Nat := if shift ≤ 0 then 1 else 2 ^ (shift.toNat - 1)
  let q1 : Nat := if r > half ∨ (r = half ∧ q % 2 = 1) then q + 1 else q
  let g1 : Int := if q1 = 2 ^ (mb + 1) then g + 1 else g
  let q2 : Nat := if q1 = 2 ^ (mb + 1) then 2 ^ mb else q1
  if q2 < 2 ^ mb then
    Except.ok ((if s then 2 ^ (eb + mb) else 0) + q2)
  else
    let biased : Int := g1 + mb + bias
    if biased ≤ 2 ^ eb - 2 then
      Except.ok ((if s then 2 ^ (eb + mb) else 0) + biased.toNat * 2 ^ mb + (q2 - 2 ^ mb))
    else Except.error Err.overflowError

/-- Narrowing conversion between IEEE formats (the C cast double to
float of `PyFloat_Pack4`): NaN keeps its sign, truncates its payload and
is quieted (x86 `cvtsd2ss`), infinities map to infinities, finite values
are rounded to nearest with overflow raising `OverflowError`. -/
def narrowIEEE (eb1 mb1 eb2 mb2 bits : Nat) : Except Err Nat :=
  let sbit : Nat := if ieeeSign eb1 mb1 bits = 1 then 2 ^ (eb2 + mb2) else 0
  if isNaN eb1 mb1 bits then
    Except.ok (sbit + (2 ^ eb2 - 1) * 2 ^ mb2 +
      (ieeeFrac mb1 bits / 2 ^ (mb1 - mb2) ||| 2 ^ (mb2 - 1)))
  else if isInf eb1 mb1 bits then
    Except.ok (sbit + (2 ^ eb2 - 1) * 2 ^ mb2)
  else
    let p := finiteParts eb1 mb1 bits
    if p.1 = 0 then Except.ok sbit
    else encodeFinite eb2 mb2 (ieeeSign eb1 mb1 bits = 1) p.1 p.2

/-- Widening conversion between IEEE formats (the exact C cast float to
double used when unpacking an `f` value): NaN payloads shift up and are
quieted, infinities and zeros map across, finite values convert
exactly. -/
def widenIEEE (eb1 mb1 eb2 mb2 bits : Nat) : Nat :=
  let sbit : Nat := if ieeeSign eb1 mb1 bits = 1 then 2 ^ (eb2 + mb2) else 0
  if isNaN eb1 mb1 bits then
    sbit + (2 ^ eb2 - 1) * 2 ^ mb2 +
      (ieeeFrac mb1 bits * 2 ^ (mb2 - mb1) ||| 2 ^ (mb2 - 1))
  else if isInf eb1 mb1 bits then sbit + (2 ^ eb2 - 1) * 2 ^ mb2
  else
    let p := finiteParts eb1 mb1 bits
    if p.1 = 0 then sbit
    else
      let k := bitLen p.1 - 1
      let biased : Int := p.2 + k + ((2 : Int) ^ (eb2 - 1) - 1)
      sbit + biased.toNat * 2 ^ mb2 + (p.1 * 2 ^ (mb2 - k) - 2 ^ mb2)

/-- `(float)x` narrowing of a double pattern to binary32. -/
def doubleToFloat32 (bits : Nat) : Except Err Nat := narrowIEEE 11 52 8 23 bits

/-- Exact widening of a binary32 pattern back to binary64. -/
def float32ToDouble (bits : Nat) : Nat := widenIEEE 8 23 11 52 bits

/-- CPython's int-to-float conversion (`PyFloat_AsDouble` on an `int`):
rounds to the nearest double, raising `OverflowError` for magnitudes at
or beyond `2^1024`. -/
def intToDoubleBits (n : Int) : Except Err Nat :=
  if n = 0 then Except.ok 0
  else encodeFinite 11 52 (decide (n < 0)) n.natAbs 0

/-- `__index__`-style view of a value: Python `bool` is an `int`
subclass, so `True` packs as 1 and `False` as 0; floats and other
values are not integers (`struct`'s integer codes reject them). -/
def PyVal.toNum : PyVal → Option Int
  | .int i => some i
  | .bool b => some (if b then 1 else 0)
  | _ => Option.none

/-- `PyFloat_AsDouble` as `struct`'s `f`/`d` handlers use it: a float
passes through, ints and bools convert (rounding, with overflow), other
values raise the struct argument error. -/
def pyFloatVal : PyVal → Except Err Nat
  | .float bits => Except.ok bits
  | .int n => intToDoubleBits n
  | .bool b => intToDoubleBits (if b then 1 else 0)
  | _ => Except.error Err.structError

/-- Python truthiness (`PyObject_IsTrue`), used by the `?` format; both
float zeros are falsy. -/
def pyTruthy : PyVal → Bool
  | .none => false
  | .int i => ! (i == 0)
  | .bool b => b
  | .bytes bs => ! bs.isEmpty
  | .str s => ! s.isEmpty
  | .float bits => ! isZeroF 11 52 bits

/-- Packing of one argument-consuming format item, per CPython `struct`:
`s` takes a bytes object and silently truncates or null-pads it to the
declared width; `?` packs the truthiness of any object; `c` takes a
one-byte bytes object; `f`/`d` take a float (or an int/bool converted
through `PyFloat_AsDouble`) and emit its IEEE bytes, `f` after the
narrowing cast; integer codes (the pointer code `P` included) take an
integer (range-checked) and emit it little-endian.  A repeat count on a
scalar code makes the item consume that many arguments, so under
`NamedStruct.pack` — which supplies exactly one value per significant
field — it always fails `struct.pack`'s argument-count check, modelled
here by the count guard. -/
def packOne (f : Field) (v : PyVal) : Except Err (List Nat) :=
  let c := lastChar f.fmt
  if c = 's' then
    match v with
    | .bytes bs =>
        Except.ok (bs.take (itemSize f.fmt) ++ List.replicate (itemSize f.fmt - bs.length) 0)
    | _ => Except.error Err.structError
  else if fmtRepeat f.fmt ≠ 1 then Except.error Err.structError
  else if c = '?' then Except.ok [if pyTruthy v then 1 else 0]
  else if c = 'c' then
    match v with
    | .bytes [b] => Except.ok [b]
    | _ => Except.error Err.structError
  else if c = 'd' then
    match pyFloatVal v with
    | Except.error e => Except.error e
    | Except.ok dbits => Except.ok (natToLE 8 dbits)
  else if c = 'f' then
    match pyFloatVal v with
    | Except.error e => Except.error e
    | Except.ok dbits =>
      match doubleToFloat32 dbits with
      | Except.error e => Except.error e
      | Except.ok fbits => Except.ok (natToLE 4 fbits)
  else if isIntChar c then
    match v.toNum with
    | some i =>
        if intLo c ≤ i ∧ i ≤ intHi c then
          Except.ok (natToLE (scalarSize c) ((i % ((2 : Int) ^ (8 * scalarSize c))).toNat))
        else Except.error Err.structError
    | Option.none => Except.error Err.structError
  else Except.error Err.structError

/-- `struct.pack` over a field list: walks the items in order keeping the
running offset, inserts native alignment padding (zero bytes) before each
item, emits zero bytes for `x` items without consuming an argument, and
requires the argument count to match exactly. -/
def packFields : List Field → List PyVal → Nat → Except Err (List Nat)
  | [], [], _ => Except.ok []
  | [], _ :: _, _ => Except.error Err.structError
  | f :: fs, args, off =>
    let pad := alignPad off (itemAlign f.fmt)
    if is_significant f then
      match args with
      | [] => Except.error Err.structError
      | v :: rest =>
        match packOne f v with
        | Except.error e => Except.error e
        | Except.ok enc =>
          match packFields fs rest (off + pad + itemSize f.fmt) with
          | Except.error e => Except.error e
          | Except.ok tail => Except.ok (List.replicate pad 0 ++ enc ++ tail)
    else
      match packFields fs args (off + pad + itemSize f.fmt) with
      | Except.error e => Except.error e
      | Except.ok tail =>
          Except.ok (List.replicate pad 0 ++ List.replicate (itemSize f.fmt) 0 ++ tail)

/-- `struct.calcsize` of the suffix of a format starting at offset
`off`: folds alignment padding plus item width over the fields. -/
def calcOffset : List Field → Nat → Nat
  | [], off => off
  | f :: fs, off => calcOffset fs (off + alignPad off (itemAlign f.fmt) + itemSize f.fmt)

/-- Total byte width of a compiled layout (`struct.Struct(...).size`). -/
def layoutSize (fs : List Field) : Nat := calcOffset fs 0

/-- Decoding of one unpacked item: `s` and `c` yield the raw bytes, `?`
yields whether the byte is nonzero, `d` yields the float with those 8
bytes as its pattern, `f` widens the 4-byte binary32 pattern to a
double, signed codes decode two's complement, unsigned codes (the
pointer code `P` included, which unpacks unsigned) decode
little-endian. -/
def decodeOne (f : Field) (bs : List Nat) : PyVal :=
  let c := lastChar f.fmt
  if c = 's' ∨ c = 'c' then PyVal.bytes bs
  else if c = '?' then PyVal.bool (! (bs.getD 0 0 == 0))
  else if c = 'd' then PyVal.float (leToNat bs)
  else if c = 'f' then PyVal.float (float32ToDouble (leToNat bs))
  else if isSignedChar c then PyVal.int (decodeSLE (scalarSize c) bs)
  else PyVal.int (Int.ofNat (leToNat bs))

/-- `struct.unpack`'s positional walk: skips alignment padding and `x`
items, decodes each value-carrying item from its slice of the buffer. -/
def unpackFields : List Field → List Nat → Nat → List PyVal
  | [], _, _ => []
  | f :: fs, buf, off =>
    let pad := alignPad off (itemAlign f.fmt)
    let rest := buf.drop pad
    let piece := rest.take (itemSize f.fmt)
    let tail := unpackFields fs (rest.drop (itemSize f.fmt)) (off + pad + itemSize f.fmt)
    if is_significant f then decodeOne f piece :: tail else tail

/-- `struct.unpack`: demands that the buffer length equal the layout's
computed size exactly, then decodes positionally. -/
def structUnpack (fs : List Field) (buf : List Nat) : Except Err (List PyVal) :=
  if buf.length = layoutSize fs then Except.ok (unpackFields fs buf 0)
  else Except.error Err.structError

/-- A `NamedStruct` instance: the list of `Field` objects of its class
(`cls._fields`, already in birthday order), its `_values` ordered
dictionary, and any plain instance attributes created by `setattr` calls
whose name matches no descriptor. -/
structure Inst : Type where
  type : List Field
  values : List (String × PyVal)
  extras : List (String × PyVal)
deriving DecidableEq

/-- Ordered-dictionary assignment `d[k] = v`: an existing key keeps its
position and gets the new value, a fresh key is appended. -/
def odSet : List (String × PyVal) → String → PyVal → List (String × PyVal)
  | [], k, v => [(k, v)]
  | (k0, v0) :: rest, k, v =>
    if k0 = k then (k0, v) :: rest else (k0, v0) :: odSet rest k v

/-- A code-point or byte list is valid ascii when every entry is below
128. -/
def asciiOk (l : List Nat) : Bool := l.all (fun b => b < 128)

/-- `bytes.decode("ascii")`: the identity on byte values below 128,
`UnicodeDecodeError` otherwise. -/
def asciiDecode (bs : List Nat) : Except Err (List Nat) :=
  if asciiOk bs then Except.ok bs else Except.error Err.unicodeError

/-- `str.encode("ascii")`: the identity on code points below 128,
`UnicodeEncodeError` otherwise. -/
def asciiEncode (s : List Nat) : Except Err (List Nat) :=
  if asciiOk s then Except.ok s else Except.error Err.unicodeError

/-- `value.rstrip(chr 0)`: removes every trailing null. -/
def rstrip0 (s : List Nat) : List Nat := (s.reverse.dropWhile (fun b => b == 0)).reverse

/-- First step of `StringField.__set__`: a bytes value is decoded with
the field's encoding, a text value passes through, anything else fails
(no `rstrip`/`encode` method). -/
def toText : PyVal → Except Err (List Nat)
  | .bytes bs => asciiDecode bs
  | .str s => Except.ok s
  | _ => Except.error Err.typeError

/-- The value a field's `__set__` stores.  `StringField.__set__` decodes
bytes input, strips trailing nulls when `strip_null` is set, and stores
the re-encoded bytes; the base `Field.__set__` (also used by `Padding`)
stores the value unchanged. -/
def setTransform (f : Field) (v : PyVal) : Except Err PyVal :=
  if f.isString then
    match toText v with
    | Except.error e => Except.error e
    | Except.ok s =>
      match asciiEncode (if f.strip_null then rstrip0 s else s) with
      | Except.error e => Except.error e
      | Except.ok out => Except.ok (PyVal.bytes out)
  else Except.ok v

/-- `setattr(self, k, v)`: when `k` names a `Field` descriptor of the
class, its `__set__` runs and writes `self._values[field._name]`;
otherwise Python silently creates a plain instance attribute. -/
def setattrInst (tyFields : List Field) (inst : Inst) (k : String) (v : PyVal) :
    Except Err Inst :=
  match tyFields.find? (fun f => f.name == k) with
  | some f =>
    match setTransform f v with
    | Except.error e => Except.error e
    | Except.ok u => Except.ok { inst with values := odSet inst.values f.name u }
  | Option.none => Except.ok { inst with extras := odSet inst.extras k v }

/-- `filter(Field.is_significant, cls._fields.values())`. -/
def sigFields (fs : List Field) : List Field := fs.filter (fun f => is_significant f)

/-- The `_values` dictionary `NamedStruct.__init__` builds before
applying keyword arguments: every significant field mapped to `None`. -/
def initValues (fs : List Field) : List (String × PyVal) :=
  (sigFields fs).map (fun f => (f.name, PyVal.none))

/-- The `setattr` loop of `NamedStruct.__init__` over the keyword
arguments, in order. -/
def foldSet (tyFields : List Field) : Inst → List (String × PyVal) → Except Err Inst
  | inst, [] => Except.ok inst
  | inst, (k, v) :: rest =>
    match setattrInst tyFields inst k v with
    | Except.error e => Except.error e
    | Except.ok inst2 => foldSet tyFields inst2 rest

/-- `NamedStruct.__init__`: initialises `_values` with the unset
sentinel for each significant field, then assigns each keyword argument
through `setattr`. -/
def initStruct (fs : List Field) (kwargs : List (String × PyVal)) : Except Err Inst :=
  foldSet fs ⟨fs, initValues fs, []⟩ kwargs

/-- `NamedStruct._to_seq`: the tuple of current `_values` entries. -/
def to_seq (inst : Inst) : List PyVal := inst.values.map Prod.snd

/-- `NamedStruct.pack`: `self._struct.pack(*self._to_seq())`. -/
def pack (inst : Inst) : Except Err (List Nat) := packFields inst.type (to_seq inst) 0

/-- Building the dictionary comprehension of `_from_seq`: later
occurrences of a key overwrite earlier ones. -/
def dictOf (l : List (String × PyVal)) : List (String × PyVal) :=
  l.foldl (fun d p => odSet d p.1 p.2) []

/-- `NamedStruct._from_seq`: zips the significant fields with the
decoded value sequence and constructs a new instance from the resulting
name-to-value dictionary. -/
def from_seq (fs : List Field) (seq : List PyVal) : Except Err Inst :=
  initStruct fs (dictOf (List.zipWith (fun f v => (f.name, v)) (sigFields fs) seq))

/-- `NamedStruct.unpack`: `cls._from_seq(cls._struct.unpack(buffer))`. -/
def unpack (fs : List Field) (buf : List Nat) : Except Err Inst :=
  match structUnpack fs buf with
  | Except.error e => Except.error e
  | Except.ok seq => from_seq fs seq

/-- Python `==` between two floats, on bit patterns: NaN is equal to
nothing (distinct objects carry no identity shortcut here), and apart
from the two zeros — which compare equal — finite and infinite doubles
have unique patterns, so value equality is pattern equality. -/
def floatEq64 (x y : Nat) : Bool :=
  ! isNaN 11 52 x && ! isNaN 11 52 y &&
    (x == y || (isZeroF 11 52 x && isZeroF 11 52 y))

/-- Python `==` between a float and an integer: exact numeric
comparison (`1.0 == 1` holds); NaN and infinities equal no integer. -/
def floatEqInt (bits : Nat) (n : Int) : Bool :=
  if isNaN 11 52 bits ∨ isInf 11 52 bits then false
  else
    let p := finiteParts 11 52 bits
    let sgnM : Int := if ieeeSign 11 52 bits = 1 then -(p.1 : Int) else (p.1 : Int)
    if 0 ≤ p.2 then n = sgnM * 2 ^ p.2.toNat
    else n * 2 ^ (-p.2).toNat = sgnM

/-- Python `==` on stored values: `True == 1` and `False == 0` hold
because `bool` is an `int` subclass, floats compare by IEEE value
(also against ints and bools, exactly); other comparisons are
structural. -/
def pyEq (a b : PyVal) : Bool :=
  match a, b with
  | .float x, .float y => floatEq64 x y
  | .float x, other =>
    match other.toNum with
    | some n => floatEqInt x n
    | Option.none => false
  | other, .float y =>
    match other.toNum with
    | some n => floatEqInt y n
    | Option.none => false
  | _, _ =>
    match a.toNum, b.toNum with
    | some x, some y => x == y
    | _, _ => a == b

/-- `OrderedDict.__eq__` between two `_values` dictionaries:
order-sensitive equality of keys together with `==` on the values. -/
def valuesEq : List (String × PyVal) → List (String × PyVal) → Bool
  | [], [] => true
  | (k1, v1) :: r1, (k2, v2) :: r2 => k1 == k2 && pyEq v1 v2 && valuesEq r1 r2
  | _, _ => false

/-- The `other` operand of `NamedStruct.__eq__`: either some
`NamedStruct` instance (of any `NamedStruct` subclass) or an unrelated
object. -/
inductive PyObj : Type
  | inst : Inst → PyObj
  | nonStruct : PyObj

/-- `NamedStruct.__eq__`: `False` unless `other` is a `NamedStruct`
instance (of whatever subclass), then `self._values == other._values`. -/
def instEq (self : Inst) (other : PyObj) : Bool :=
  match other with
  | .inst o => valuesEq self.values o.values
  | .nonStruct => false

/-- `int(single character)`: succeeds exactly on a decimal digit,
raising `ValueError` otherwise. -/
def intOfChar (c : Char) : Except Err Int :=
  if c.isDigit then Except.ok ((c.toNat - 48 : Nat) : Int) else Except.error Err.valueError

/-- `Field.__len__` as written in the source: when `self._fmt[:-1]` is
nonempty it evaluates `int(self._fmt[-1])` — the last character, i.e.
the format letter — checks the result for negativity and returns its
absolute value; a scalar format raises `TypeError`. -/
def field_len (fmt : List Char) : Except Err Nat :=
  if fmt.dropLast ≠ [] then
    match intOfChar (lastChar fmt) with
    | Except.error e => Except.error e
    | Except.ok length =>
        if length < 0 then Except.error Err.typeError
        else Except.ok length.toNat
  else Except.error Err.typeError

/-- `StringField.__get__` as written in the source: it evaluates
`super().__get__(obj, type).decode(self._encoding)` but has no `return`
statement, so after computing the decoded text it returns `None`. -/
def StringField_get (stored : PyVal) : Except Err PyVal :=
  match stored with
  | .bytes bs =>
    match asciiDecode bs with
    | Except.error e => Except.error e
    | Except.ok _ => Except.ok PyVal.none
  | _ => Except.error Err.typeError

/-- Modelled from the spec: the documented get contract of a string
field, "returns decoded text using `encoding`" — the value the
descriptor would return if the decoded result were returned. -/
def StringField_get_spec (stored : PyVal) : Except Err PyVal :=
  match stored with
  | .bytes bs =>
    match asciiDecode bs with
    | Except.error e => Except.error e
    | Except.ok s => Except.ok (PyVal.str s)
  | _ => Except.error Err.typeError

/-- Comparison of two class attributes by field birthday, the key
`HasFields.__new__` sorts by. -/
def birthLE (a b : String × Field) : Prop := a.2.birthday ≤ b.2.birthday

instance : DecidableRel birthLE := fun a b => Nat.decLe a.2.birthday b.2.birthday

instance : IsTotal (String × Field) birthLE :=
  ⟨fun a b => Nat.le_total a.2.birthday b.2.birthday⟩

instance : IsTrans (String × Field) birthLE :=
  ⟨fun _ _ _ h1 h2 => Nat.le_trans h1 h2⟩

/-- Name binding done by `HasFields.__new__`: each collected field gets
`_name` set to its attribute name (and `_owner_type` to the class, which
the model does not track). -/
def bindNames (l : List (String × Field)) : List (String × Field) :=
  l.map (fun p => (p.1, { p.2 with name := p.1 }))

/-- `HasFields.__new__`'s field table: the `Field`-valued entries of the
class `attrs` mapping — handed over in whatever iteration order the
mapping produces — sorted by birthday with Python's stable `sorted`,
then name-bound.  The result is `cls._fields`. -/
def buildFields (attrs : List (String × Field)) : List (String × Field) :=
  bindNames (List.insertionSort birthLE attrs)

/-- The format strings of a field table in order; `cls._struct` is built
from their space-separated concatenation. -/
def layoutFmts (flds : List (String × Field)) : List (List Char) :=
  flds.map (fun p => p.2.fmt)

/-- The space-joined layout string passed to `struct.Struct`. -/
def layoutString (flds : List (String × Field)) : List Char :=
  List.intercalate [' '] (layoutFmts flds)

/-- The significant entries of a field table, in table order. -/
def sigOf (flds : List (String × Field)) : List (String × Field) :=
  flds.filter (fun p => is_significant p.2)

/-- In-range-and-wire-exact condition on one significant field's stored
value, under which the pack/unpack round trip restores it exactly: a
bool for `?`, a single byte for `c`, an integer within the format's
range for the integer codes (non-negative for the pointer code `P`,
which accepts negatives but unpacks unsigned), a non-NaN double for `d`
(NaN never equals a freshly unpacked NaN), a non-NaN double that
survives the binary32 narrowing exactly for `f`; for a byte run (`s`) a
bytes value of valid bytes that fills the declared width exactly — or,
for a `StringField`, ascii bytes that either fill the width exactly or,
with `strip_null` set, carry no trailing null (shorter values get
null-padded on the wire, which is the round-trip counterexample).
Scalar codes must carry no repeat count: a repeated scalar consumes
several packing arguments, which `NamedStruct._to_seq` can never
supply. -/
def inRangeB (f : Field) (v : PyVal) : Bool :=
  let c := lastChar f.fmt
  if c = '?' then
    fmtRepeat f.fmt = 1 &&
    (match v with
     | .bool _ => true
     | _ => false)
  else if c = 'c' then
    fmtRepeat f.fmt = 1 &&
    (match v with
     | .bytes [b] => b < 256
     | _ => false)
  else if c = 'd' then
    fmtRepeat f.fmt = 1 &&
    (match v with
     | .float bits => bits < 2 ^ 64 && ! isNaN 11 52 bits
     | _ => false)
  else if c = 'f' then
    fmtRepeat f.fmt = 1 &&
    (match v with
     | .float bits =>
        bits < 2 ^ 64 && ! isNaN 11 52 bits &&
        (match doubleToFloat32 bits with
         | Except.ok fbits => fbits < 2 ^ 32 && float32ToDouble fbits == bits
         | Except.error _ => false)
     | _ => false)
  else if isIntChar c then
    fmtRepeat f.fmt = 1 &&
    (match v with
     | .int i => decide (intLo c ≤ i) && decide (i ≤ intHi c)
          && (isSignedChar c || decide (0 ≤ i))
     | _ => false)
  else if c = 's' then
    match v with
    | .bytes bs =>
        bs.all (fun b => b < 256) &&
        (if f.isString then
           asciiOk bs && bs.length ≤ itemSize f.fmt &&
             (if f.strip_null then rstrip0 bs == bs else bs.length == itemSize f.fmt)
         else bs.length == itemSize f.fmt)
    | _ => false
  else false

/-- The value sequence `vs` lines up with the field list: one in-range
value per significant field, nothing else. -/
def fieldValsB : List Field → List PyVal → Bool
  | [], vs => vs.isEmpty
  | f :: fs, vs =>
    if is_significant f then
      match vs with
      | [] => false
      | v :: rest => inRangeB f v && fieldValsB fs rest
    else fieldValsB fs vs

/-- What one pack-then-unpack cycle turns a stored value into: byte runs
come back null-padded to the declared width, everything else in range
comes back unchanged. -/
def wireVal (f : Field) (v : PyVal) : PyVal :=
  match v with
  | .bytes bs =>
    if lastChar f.fmt = 's' then
      PyVal.bytes (bs ++ List.replicate (itemSize f.fmt - bs.length) 0)
    else v
  | _ => v

/-- The decoded sequence `struct.unpack` yields for a packed instance:
the wire value of each significant field's stored value, in order. -/
def seqOut : List Field → List PyVal → List PyVal
  | [], _ => []
  | f :: fs, vs =>
    if is_significant f then
      match vs with
      | [] => []
      | v :: rest => wireVal f v :: seqOut fs rest
    else seqOut fs vs

/-- Sum of the individual byte widths of a field list, with no
alignment padding. -/
def sumSizes (fs : List Field) : Nat := (fs.map (fun f => itemSize f.fmt)).sum

/-- Total native alignment padding `struct` inserts into a layout
starting at offset `off`. -/
def sumPads : List Field → Nat → Nat
  | [], _ => 0
  | f :: fs, off =>
    let pad := alignPad off (itemAlign f.fmt)
    pad + sumPads fs (off + pad + itemSize f.fmt)

/-- An instance of the class with field list `fs` whose significant
fields hold the values `vals`, in order. -/
def instOf (fs : List Field) (vals : List PyVal) : Inst :=
  ⟨fs, List.zipWith (fun f v => (f.name, v)) (sigFields fs) vals, []⟩

/- ## Concrete structure types used by the claims -/

/-- `a = Field('L')` of the docstring's `Foo` example. -/
def fooA : Field := ⟨['L'], "a", 0, false, false⟩

/-- `dummy = Padding(12)` of the docstring's `Foo` example
(format `12x`). -/
def fooDummy : Field := ⟨['1', '2', 'x'], "dummy", 1, false, false⟩

/-- `b = Field('B')` of the docstring's `Foo` example. -/
def fooB : Field := ⟨['B'], "b", 2, false, false⟩

/-- The docstring's `Foo` structure: `a`, 12 padding bytes, `b`. -/
def fooFields : List Field := [fooA, fooDummy, fooB]

/-- `s = StringField(4)` (format `4s`, `strip_null` off). -/
def sf4 : Field := ⟨['4', 's'], "s", 3, true, false⟩

/-- `s = StringField(2)` (format `2s`). -/
def sf2 : Field := ⟨['2', 's'], "s", 4, true, false⟩

/-- `s = StringField(4, strip_null=True)`. -/
def sf4strip : Field := ⟨['4', 's'], "s", 5, true, true⟩

/-- `flag = Field('?')`: a single bool field. -/
def flagField : Field := ⟨['?'], "flag", 6, false, false⟩

/-- `a = Field('B')` of a one-field structure. -/
def quxA : Field := ⟨['B'], "a", 7, false, false⟩

/-- `x = Field('B')` of structure type `A`. -/
def axField : Field := ⟨['B'], "x", 8, false, false⟩

/-- `x = Field('B')` of a second, distinct structure type `B`. -/
def bxField : Field := ⟨['B'], "x", 9, false, false⟩

/-- `a = Field('B')` followed by `b = Field('I')`: an unsigned byte
before a 4-byte unsigned int. -/
def mixB : Field := ⟨['B'], "a", 10, false, false⟩

/-- The 4-byte unsigned int field following `mixB`. -/
def mixI : Field := ⟨['I'], "b", 11, false, false⟩

/-- `z = Field('d')`: a double field appended to the `Foo` fields. -/
def fooD : Field := ⟨['d'], "z", 12, false, false⟩

/-- The `Foo` structure extended with a trailing double field. -/
def fooDFields : List Field := [fooA, fooDummy, fooB, fooD]

/- ## Helper lemmas: little-endian integer codec -/

theorem natToLE_length (w n : Nat) : (natToLE w n).length = w := by
  induction w generalizing n with
  | zero => rfl
  | succ w ih => simp [natToLE, ih]

theorem mod_mul_decomp (n m : Nat) (hm : 0 < m) :
    n % (256 * m) = n % 256 + 256 * (n / 256 % m) := by
  have h1 : 256 * (n / 256) + n % 256 = n := Nat.div_add_mod n 256
  have hr : n % 256 < 256 := Nat.mod_lt _ (by norm_num)
  have h2 : (256 * (n / 256) + n % 256) % (256 * m) =
      ((256 * (n / 256)) % (256 * m) + (n % 256) % (256 * m)) % (256 * m) :=
    Nat.add_mod _ _ _
  have h3 : (256 * (n / 256)) % (256 * m) = 256 * (n / 256 % m) :=
    Nat.mul_mod_mul_left _ _ _
  have h4 : (n % 256) % (256 * m) = n % 256 := by
    apply Nat.mod_eq_of_lt
    have : 256 ≤ 256 * m := Nat.le_mul_of_pos_right _ hm
    omega
  have h5 : 256 * (n / 256 % m) + n % 256 < 256 * m := by
    have := Nat.mod_lt (n / 256) hm
    omega
  calc n % (256 * m) = (256 * (n / 256) + n % 256) % (256 * m) := by rw [h1]
    _ = ((256 * (n / 256)) % (256 * m) + (n % 256) % (256 * m)) % (256 * m) := h2
    _ = (256 * (n / 256 % m) + n % 256) % (256 * m) := by rw [h3, h4]
    _ = 256 * (n / 256 % m) + n % 256 := Nat.mod_eq_of_lt h5
    _ = n % 256 + 256 * (n / 256 % m) := by omega

theorem leToNat_natToLE (w n : Nat) : leToNat (natToLE w n) = n % 256 ^ w := by
  induction w generalizing n with
  | zero => simp [natToLE, leToNat, Nat.mod_one]
  | succ w ih =>
    have hpos : 0 < (256 : Nat) ^ w := Nat.pos_pow_of_pos w (by norm_num)
    calc leToNat (natToLE (w + 1) n) = n % 256 + 256 * leToNat (natToLE w (n / 256)) := by
          simp [natToLE, leToNat]
      _ = n % 256 + 256 * (n / 256 % 256 ^ w) := by rw [ih]
      _ = n % (256 * 256 ^ w) := (mod_mul_decomp n (256 ^ w) hpos).symm
      _ = n % 256 ^ (w + 1) := by rw [pow_succ, Nat.mul_comm]

theorem pow256_eq (w : Nat) : (256 : Nat) ^ w = 2 ^ (8 * w) := by
  have : (256 : Nat) = 2 ^ 8 := by norm_num
  rw [this, ← pow_mul]

theorem decode_unsigned (w : Nat) (i : Int) (h0 : 0 ≤ i) (h1 : i < (2 : Int) ^ (8 * w)) :
    (Int.ofNat (leToNat (natToLE w ((i % ((2 : Int) ^ (8 * w))).toNat))) : Int) = i := by
  have hmod : i % (2 : Int) ^ (8 * w) = i := Int.emod_eq_of_lt h0 h1
  rw [hmod, leToNat_natToLE]
  have hcast : ((i.toNat : Int)) = i := Int.toNat_of_nonneg h0
  have h2 : i.toNat < 256 ^ w := by
    rw [pow256_eq]
    have : (i.toNat : Int) < ((2 ^ (8 * w) : Nat) : Int) := by push_cast; omega
    exact_mod_cast this
  rw [Nat.mod_eq_of_lt h2]
  simpa using hcast

theorem decode_signed (w : Nat) (hw : 0 < w) (i : Int)
    (h0 : -(2 : Int) ^ (8 * w - 1) ≤ i) (h1 : i < (2 : Int) ^ (8 * w - 1)) :
    decodeSLE w (natToLE w ((i % ((2 : Int) ^ (8 * w))).toNat)) = i := by
  have hsplit : 8 * w = (8 * w - 1) + 1 := by omega
  have hM : (2 : Int) ^ (8 * w) = 2 * (2 : Int) ^ (8 * w - 1) := by
    conv_lhs => rw [hsplit]
    rw [pow_succ]; ring
  have hHpos : (0 : Int) < (2 : Int) ^ (8 * w - 1) := by positivity
  have hu256 : ((256 ^ w : Nat) : Int) = (2 : Int) ^ (8 * w) := by
    rw [pow256_eq]; push_cast; ring
  rcases le_or_lt 0 i with hpos | hneg
  · have hmod : i % (2 : Int) ^ (8 * w) = i := by
      apply Int.emod_eq_of_lt hpos
      calc i < (2 : Int) ^ (8 * w - 1) := h1
        _ ≤ (2 : Int) ^ (8 * w) := by rw [hM]; nlinarith
    rw [decodeSLE, hmod, leToNat_natToLE]
    have h2 : i.toNat < 256 ^ w := by
      have : (i.toNat : Int) < ((256 ^ w : Nat) : Int) := by
        rw [hu256, hM]
        have := Int.toNat_of_nonneg hpos
        omega
      exact_mod_cast this
    rw [Nat.mod_eq_of_lt h2]
    have hlt : i.toNat < 2 ^ (8 * w - 1) := by
      have h256 : ((2 ^ (8 * w - 1) : Nat) : Int) = (2 : Int) ^ (8 * w - 1) := by push_cast; ring
      have : (i.toNat : Int) < ((2 ^ (8 * w - 1) : Nat) : Int) := by
        rw [h256]
        have := Int.toNat_of_nonneg hpos
        omega
      exact_mod_cast this
    rw [if_pos hlt]
    simp [Int.toNat_of_nonneg hpos]
  · have hshift : i % (2 : Int) ^ (8 * w) = i + (2 : Int) ^ (8 * w) := by
      have hlo : 0 ≤ i + (2 : Int) ^ (8 * w) := by rw [hM]; nlinarith
      have hhi : i + (2 : Int) ^ (8 * w) < (2 : Int) ^ (8 * w) := by omega
      have h2 : (i + (2 : Int) ^ (8 * w)) % (2 : Int) ^ (8 * w) = i + (2 : Int) ^ (8 * w) :=
        Int.emod_eq_of_lt hlo hhi
      have h3 : (i + (2 : Int) ^ (8 * w)) % (2 : Int) ^ (8 * w) = i % (2 : Int) ^ (8 * w) := by
        conv_lhs => rw [show i + (2 : Int) ^ (8 * w) = i + (2 : Int) ^ (8 * w) * 1 by ring]
        rw [Int.add_mul_emod_self_left]
      rw [h3] at h2
      exact h2
    rw [decodeSLE, hshift, leToNat_natToLE]
    have hlo : 0 ≤ i + (2 : Int) ^ (8 * w) := by rw [hM]; nlinarith
    have h2 : (i + (2 : Int) ^ (8 * w)).toNat < 256 ^ w := by
      have : ((i + (2 : Int) ^ (8 * w)).toNat : Int) < ((256 ^ w : Nat) : Int) := by
        rw [hu256, Int.toNat_of_nonneg hlo]; omega
      exact_mod_cast this
    rw [Nat.mod_eq_of_lt h2]
    have hge : ¬ ((i + (2 : Int) ^ (8 * w)).toNat < 2 ^ (8 * w - 1)) := by
      intro hcon
      have h256 : ((2 ^ (8 * w - 1) : Nat) : Int) = (2 : Int) ^ (8 * w - 1) := by push_cast; ring
      have : ((i + (2 : Int) ^ (8 * w)).toNat : Int) < ((2 ^ (8 * w - 1) : Nat) : Int) := by
        exact_mod_cast hcon
      rw [h256, Int.toNat_of_nonneg hlo, hM] at this
      omega
    rw [if_neg hge]
    rw [Int.toNat_of_nonneg hlo]
    omega

/- ## Helper lemmas: one field packs and decodes back to its wire value -/

theorem intChar_cases (c : Char) (h : isIntChar c = true) :
    c = 'b' ∨ c = 'h' ∨ c = 'i' ∨ c = 'l' ∨ c = 'q' ∨
    c = 'B' ∨ c = 'H' ∨ c = 'I' ∨ c = 'L' ∨ c = 'Q' ∨ c = 'P' := by
  simp only [isIntChar, isSignedChar, Bool.or_eq_true, decide_eq_true_eq] at h
  tauto

theorem intChar_not (c : Char) (h : isIntChar c = true) :
    c ≠ 's' ∧ c ≠ '?' ∧ c ≠ 'c' ∧ c ≠ 'x' ∧ c ≠ 'd' ∧ c ≠ 'f' := by
  rcases intChar_cases c h with h | h | h | h | h | h | h | h | h | h | h <;> subst h <;>
    exact ⟨by decide, by decide, by decide, by decide, by decide, by decide⟩

theorem signedChar_ne_P (c : Char) (h : isSignedChar c = true) : c ≠ 'P' := by
  simp only [isSignedChar, decide_eq_true_eq] at h
  rcases h with h | h | h | h | h <;> subst h <;> decide

theorem scalarSize_pos (c : Char) : 0 < scalarSize c := by
  simp only [scalarSize]
  split_ifs <;> norm_num

theorem except_split {α : Type} (x : Except Err α) :
    (∃ a, x = Except.ok a) ∨ (∃ e, x = Except.error e) := by
  cases x with
  | ok a => exact Or.inl ⟨a, rfl⟩
  | error e => exact Or.inr ⟨e, rfl⟩

theorem packOne_decodeOne_int (f : Field) (i : Int)
    (hc : isIntChar (lastChar f.fmt) = true)
    (hrep : fmtRepeat f.fmt = 1)
    (hlo : intLo (lastChar f.fmt) ≤ i) (hhi : i ≤ intHi (lastChar f.fmt))
    (hnn : isSignedChar (lastChar f.fmt) = true ∨ 0 ≤ i) :
    ∃ enc, packOne f (PyVal.int i) = Except.ok enc ∧ enc.length = itemSize f.fmt ∧
      decodeOne f enc = wireVal f (PyVal.int i) := by
  obtain ⟨hns, hnq, hnc, hnx, hnd, hnf⟩ := intChar_not _ hc
  set c := lastChar f.fmt with hcdef
  set w := scalarSize c with hwdef
  refine ⟨natToLE w ((i % ((2 : Int) ^ (8 * w))).toNat), ?_, ?_, ?_⟩
  · simp [packOne, ← hcdef, hns, hnq, hnc, hnd, hnf, hrep, hc, PyVal.toNum, hlo, hhi,
      ← hwdef]
  · simp [natToLE_length, itemSize, ← hcdef, hns, hnx, hrep, ← hwdef]
  · have hw : 0 < w := scalarSize_pos c
    by_cases hsg : isSignedChar c = true
    · have hlo2 : -(2 : Int) ^ (8 * w - 1) ≤ i := by
        rw [intLo, if_neg (signedChar_ne_P c hsg), if_pos hsg, ← hwdef] at hlo
        exact hlo
      have hhi2 : i < (2 : Int) ^ (8 * w - 1) := by
        rw [intHi, if_pos hsg, ← hwdef] at hhi
        omega
      simp only [decodeOne, ← hcdef, ← hwdef]
      rw [if_neg (by simp [hns, hnc]), if_neg hnq, if_neg hnd, if_neg hnf, if_pos hsg]
      rw [decode_signed w hw i hlo2 hhi2]
      simp [wireVal]
    · have hlo2 : (0 : Int) ≤ i := by
        rcases hnn with hnn | hnn
        · exact absurd hnn hsg
        · exact hnn
      have hhi2 : i < (2 : Int) ^ (8 * w) := by
        rw [intHi, if_neg hsg, ← hwdef] at hhi
        omega
      simp only [decodeOne, ← hcdef, ← hwdef]
      rw [if_neg (by simp [hns, hnc]), if_neg hnq, if_neg hnd, if_neg hnf, if_neg hsg]
      rw [decode_unsigned w i hlo2 hhi2]
      simp [wireVal]

theorem packOne_decodeOne (f : Field) (v : PyVal) (h : inRangeB f v = true) :
    ∃ enc, packOne f v = Except.ok enc ∧ enc.length = itemSize f.fmt ∧
      decodeOne f enc = wireVal f v := by
  by_cases hq : lastChar f.fmt = '?'
  · rcases v with _ | i | b | bs | t | fl <;> simp [inRangeB, hq] at h
    all_goals {
      refine ⟨[if b then 1 else 0], ?_, ?_, ?_⟩
      · simp [packOne, hq, pyTruthy, h]
      · cases b <;> simp [itemSize, hq, scalarSize, h]
      · cases b <;> simp [decodeOne, hq, wireVal]
    }
  · by_cases hcc : lastChar f.fmt = 'c'
    · rcases v with _ | i | b | bs | t | fl <;> simp [inRangeB, hq, hcc] at h
      rcases bs with _ | ⟨b0, bs'⟩
      · simp at h
      rcases bs' with _ | ⟨b1, bs''⟩
      · obtain ⟨hrep, hb⟩ := h
        refine ⟨[b0], ?_, ?_, ?_⟩
        · simp [packOne, hq, hcc, hrep]
        · simp [itemSize, hq, hcc, scalarSize, hrep]
        · simp [decodeOne, hq, hcc, wireVal]
      · simp at h
    · by_cases hs : lastChar f.fmt = 's'
      · have hii : isIntChar 's' = false := by decide
        rcases v with _ | i | b | bs | t | fl <;>
          simp [inRangeB, hq, hcc, hs, hii] at h
        have hlen : bs.length ≤ itemSize f.fmt := by
          rcases h with ⟨hall, hrest⟩
          by_cases hstr : f.isString = true <;> by_cases hsn : f.strip_null = true <;>
            simp [hstr, hsn] at hrest <;> omega
        refine ⟨bs ++ List.replicate (itemSize f.fmt - bs.length) 0, ?_, ?_, ?_⟩
        · simp [packOne, hq, hcc, hs, List.take_of_length_le hlen]
        · simp
          omega
        · simp [decodeOne, hq, hcc, hs, wireVal]
      · by_cases hd : lastChar f.fmt = 'd'
        · rcases v with _ | i | b | bs | t | bits <;>
            simp [inRangeB, hq, hcc, hs, hd] at h
          obtain ⟨hrep, hlt, hnan⟩ := h
          refine ⟨natToLE 8 bits, ?_, ?_, ?_⟩
          · simp [packOne, hd, hrep, pyFloatVal]
          · simp [natToLE_length, itemSize, hd, hrep, scalarSize]
          · have hmod : leToNat (natToLE 8 bits) = bits := by
              rw [leToNat_natToLE, show (256 : Nat) ^ 8 = 2 ^ 64 by norm_num]
              exact Nat.mod_eq_of_lt hlt
            simp [decodeOne, hd, hmod, wireVal]
        · by_cases hf : lastChar f.fmt = 'f'
          · rcases v with _ | i | b | bs | t | bits <;>
              simp [inRangeB, hq, hcc, hs, hd, hf] at h
            obtain ⟨hrep, ⟨hlt, hnan⟩, hmatch⟩ := h
            rcases except_split (doubleToFloat32 bits) with ⟨fbits, hD⟩ | ⟨e, hD⟩
            swap
            · rw [hD] at hmatch
              simp at hmatch
            · rw [hD] at hmatch
              simp at hmatch
              obtain ⟨hfb, hwiden⟩ := hmatch
              refine ⟨natToLE 4 fbits, ?_, ?_, ?_⟩
              · simp [packOne, hf, hrep, pyFloatVal, hD]
              · simp [natToLE_length, itemSize, hf, hrep, scalarSize]
              · have hmod : leToNat (natToLE 4 fbits) = fbits := by
                  rw [leToNat_natToLE, show (256 : Nat) ^ 4 = 2 ^ 32 by norm_num]
                  exact Nat.mod_eq_of_lt hfb
                simp [decodeOne, hf, hd, hmod, hwiden, wireVal]
          · by_cases hi : isIntChar (lastChar f.fmt) = true
            · rcases v with _ | i | b | bs | t | fl <;>
                simp [inRangeB, hq, hcc, hs, hd, hf, hi, PyVal.toNum] at h
              exact packOne_decodeOne_int f i hi (by tauto) (by tauto) (by tauto)
                (by tauto)
            · rcases v with _ | i | b | bs | t | fl <;>
                simp [inRangeB, hq, hcc, hs, hd, hf, hi, PyVal.toNum] at h

/- ## Helper lemmas: packing a whole field list and unpacking it back -/

theorem drop_replicate_append (pad : Nat) (l : List Nat) :
    (List.replicate pad 0 ++ l).drop pad = l := by
  have := List.drop_left (List.replicate pad (0 : Nat)) l
  rw [List.length_replicate] at this
  exact this

theorem take_len_append (l₁ l₂ : List Nat) (n : Nat) (h : l₁.length = n) :
    (l₁ ++ l₂).take n = l₁ := by
  subst h
  exact List.take_left l₁ l₂

theorem drop_len_append (l₁ l₂ : List Nat) (n : Nat) (h : l₁.length = n) :
    (l₁ ++ l₂).drop n = l₂ := by
  subst h
  exact List.drop_left l₁ l₂

theorem pack_unpack_core (fs : List Field) :
    ∀ (vs : List PyVal) (off : Nat), fieldValsB fs vs = true →
      ∃ out, packFields fs vs off = Except.ok out ∧
        out.length + off = calcOffset fs off ∧
        unpackFields fs out off = seqOut fs vs := by
  induction fs with
  | nil =>
    intro vs off h
    have hvs : vs = [] := by
      simpa [fieldValsB, List.isEmpty_iff] using h
    subst hvs
    exact ⟨[], rfl, by simp [calcOffset], by simp [unpackFields, seqOut]⟩
  | cons f fs ih =>
    intro vs off h
    by_cases hsig : is_significant f = true
    · rcases vs with _ | ⟨v, rest⟩
      · rw [fieldValsB, if_pos hsig] at h
        exact absurd h (by simp)
      · rw [fieldValsB, if_pos hsig, Bool.and_eq_true] at h
        obtain ⟨hin, hrest⟩ := h
        obtain ⟨enc, hpack1, hlen1, hdec1⟩ := packOne_decodeOne f v hin
        obtain ⟨tail, hpack2, hlen2, hdec2⟩ :=
          ih rest (off + alignPad off (itemAlign f.fmt) + itemSize f.fmt) hrest
        refine ⟨List.replicate (alignPad off (itemAlign f.fmt)) 0 ++ enc ++ tail,
          ?_, ?_, ?_⟩
        · simp only [packFields]
          rw [if_pos hsig, hpack1, hpack2]
        · simp only [calcOffset]
          rw [← hlen2]
          simp only [List.length_append, List.length_replicate, hlen1]
          omega
        · simp only [unpackFields]
          rw [if_pos hsig]
          rw [List.append_assoc, drop_replicate_append, take_len_append enc tail _ hlen1,
            drop_len_append enc tail _ hlen1, hdec1, hdec2]
          simp only [seqOut]
          rw [if_pos hsig]
    · have h2 : fieldValsB fs vs = true := by
        rw [fieldValsB.eq_def] at h
        simpa [hsig] using h
      obtain ⟨tail, hpack2, hlen2, hdec2⟩ :=
        ih vs (off + alignPad off (itemAlign f.fmt) + itemSize f.fmt) h2
      refine ⟨List.replicate (alignPad off (itemAlign f.fmt)) 0 ++
        List.replicate (itemSize f.fmt) 0 ++ tail, ?_, ?_, ?_⟩
      · simp only [packFields]
        rw [if_neg hsig, hpack2]
      · simp only [calcOffset]
        rw [← hlen2]
        simp only [List.length_append, List.length_replicate]
        omega
      · simp only [unpackFields]
        rw [if_neg hsig]
        rw [List.append_assoc, drop_replicate_append,
          drop_len_append (List.replicate (itemSize f.fmt) 0) tail _ (by simp), hdec2]
        simp only [seqOut]
        rw [if_neg hsig]

/- ## Helper lemmas: construction from keyword arguments -/

theorem find_name_self (fs : List Field) (f : Field)
    (hnodup : (fs.map Field.name).Nodup) (hmem : f ∈ fs) :
    fs.find? (fun g => g.name == f.name) = some f := by
  induction fs with
  | nil => cases hmem
  | cons g fs ih =>
    simp only [List.map_cons, List.nodup_cons] at hnodup
    rcases List.mem_cons.mp hmem with rfl | hmem2
    · simp [List.find?]
    · have hne : (g.name == f.name) = false := by
        simp only [beq_eq_false_iff_ne, ne_eq]
        intro he
        exact hnodup.1 (he ▸ List.mem_map_of_mem Field.name hmem2)
      simp only [List.find?, hne]
      exact ih hnodup.2 hmem2

theorem odSet_fresh (d : List (String × PyVal)) (k : String) (v : PyVal)
    (h : k ∉ d.map Prod.fst) : odSet d k v = d ++ [(k, v)] := by
  induction d with
  | nil => rfl
  | cons p d ih =>
    obtain ⟨k0, v0⟩ := p
    simp only [List.map_cons, List.mem_cons] at h
    push_neg at h
    rw [odSet, if_neg (fun he => h.1 he.symm), ih h.2]
    rfl

theorem odSet_mid (done rest : List (String × PyVal)) (k : String) (x v : PyVal)
    (h : k ∉ done.map Prod.fst) :
    odSet (done ++ (k, x) :: rest) k v = done ++ (k, v) :: rest := by
  induction done with
  | nil => simp [odSet]
  | cons p done ih =>
    obtain ⟨k0, v0⟩ := p
    simp only [List.map_cons, List.mem_cons] at h
    push_neg at h
    rw [List.cons_append, odSet, if_neg (fun he => h.1 he.symm), ih h.2]
    rfl

theorem foldl_odSet_fresh (l : List (String × PyVal)) :
    ∀ acc, (∀ p ∈ l, p.1 ∉ acc.map Prod.fst) → (l.map Prod.fst).Nodup →
      l.foldl (fun d p => odSet d p.1 p.2) acc = acc ++ l := by
  induction l with
  | nil =>
    intro acc _ _
    simp
  | cons p l ih =>
    intro acc hfresh hnodup
    obtain ⟨k, v⟩ := p
    simp only [List.map_cons, List.nodup_cons] at hnodup
    simp only [List.foldl_cons]
    rw [odSet_fresh acc k v (hfresh (k, v) (List.mem_cons_self _ _))]
    rw [ih (acc ++ [(k, v)]) ?_ hnodup.2]
    · simp
    · intro q hq
      simp only [List.map_append, List.mem_append, List.map_cons, List.map_nil,
        List.mem_singleton]
      push_neg
      constructor
      · exact hfresh q (List.mem_cons_of_mem _ hq)
      · intro he
        exact hnodup.1 (he ▸ List.mem_map_of_mem Prod.fst hq)

theorem dictOf_nodup (l : List (String × PyVal)) (h : (l.map Prod.fst).Nodup) :
    dictOf l = l := by
  have := foldl_odSet_fresh l [] (by simp) h
  simpa [dictOf] using this

theorem foldSet_eval (tyFields : List Field) (extras : List (String × PyVal))
    (hnodup : (tyFields.map Field.name).Nodup) :
    ∀ (sigs : List Field) (ws us : List PyVal) (done : List (String × PyVal)),
      (∀ f ∈ sigs, f ∈ tyFields) →
      (sigs.map Field.name).Nodup →
      (∀ f ∈ sigs, f.name ∉ done.map Prod.fst) →
      List.Forall₂ (fun (p : Field × PyVal) (u : PyVal) => setTransform p.1 p.2 = Except.ok u)
        (sigs.zip ws) us →
      ws.length = sigs.length →
      foldSet tyFields
          ⟨tyFields, done ++ sigs.map (fun f => (f.name, PyVal.none)), extras⟩
          (List.zipWith (fun f w => (f.name, w)) sigs ws)
        = Except.ok ⟨tyFields, done ++ List.zipWith (fun f u => (f.name, u)) sigs us, extras⟩ := by
  intro sigs
  induction sigs with
  | nil =>
    intro ws us done _ _ _ hf2 _
    rw [show List.zip ([] : List Field) ws = [] from rfl] at hf2
    cases hf2
    simp [foldSet]
  | cons f sigs ih =>
    intro ws us done hsub hsignodup hfresh hf2 hlen
    rcases ws with _ | ⟨w, ws⟩
    · simp at hlen
    rcases us with _ | ⟨u, us⟩
    · rw [List.zip_cons_cons] at hf2
      cases hf2
    rw [List.zip_cons_cons] at hf2
    cases hf2 with
    | cons hset hrest =>
      simp only [List.map_cons, List.nodup_cons] at hsignodup
      obtain ⟨hnotin, hsignodup2⟩ := hsignodup
      have hstep : setattrInst tyFields
          ⟨tyFields,
            done ++ (f.name, PyVal.none) :: sigs.map (fun g => (g.name, PyVal.none)), extras⟩
          f.name w
          = Except.ok ⟨tyFields,
              done ++ (f.name, u) :: sigs.map (fun g => (g.name, PyVal.none)), extras⟩ := by
        simp only [setattrInst,
          find_name_self tyFields f hnodup (hsub f (List.mem_cons_self _ _)), hset]
        rw [odSet_mid done _ f.name PyVal.none u (hfresh f (List.mem_cons_self _ _))]
      simp only [List.zipWith_cons_cons, List.map_cons, foldSet]
      rw [hstep]
      have hsub2 : ∀ g ∈ sigs, g ∈ tyFields := fun g hg => hsub g (List.mem_cons_of_mem _ hg)
      have hfresh2 : ∀ g ∈ sigs, g.name ∉ (done ++ [(f.name, u)]).map Prod.fst := by
        intro g hg
        simp only [List.map_append, List.mem_append, List.map_cons, List.map_nil,
          List.mem_singleton]
        push_neg
        refine ⟨hfresh g (List.mem_cons_of_mem _ hg), ?_⟩
        intro he
        exact hnotin (he ▸ List.mem_map_of_mem Field.name hg)
      have hlen2 : ws.length = sigs.length := by simpa using hlen
      have hind := ih ws us (done ++ [(f.name, u)]) hsub2 hsignodup2 hfresh2 hrest hlen2
      rw [List.append_cons done (f.name, u) (sigs.map (fun g => (g.name, PyVal.none))),
        List.append_cons done (f.name, u) (List.zipWith (fun g u => (g.name, u)) sigs us)]
      exact hind

theorem sig_names_nodup (fs : List Field) (h : (fs.map Field.name).Nodup) :
    ((sigFields fs).map Field.name).Nodup :=
  List.Nodup.sublist (List.Sublist.map Field.name (List.filter_sublist fs)) h

theorem initStruct_eval (fs : List Field) (ws us : List PyVal)
    (hnodup : (fs.map Field.name).Nodup)
    (hf2 : List.Forall₂ (fun (p : Field × PyVal) u => setTransform p.1 p.2 = Except.ok u)
      ((sigFields fs).zip ws) us)
    (hlen : ws.length = (sigFields fs).length) :
    initStruct fs (List.zipWith (fun f w => (f.name, w)) (sigFields fs) ws)
      = Except.ok ⟨fs, List.zipWith (fun f u => (f.name, u)) (sigFields fs) us, []⟩ := by
  have hsub : ∀ f ∈ sigFields fs, f ∈ fs := fun f hf => List.mem_of_mem_filter hf
  have hsignodup := sig_names_nodup fs hnodup
  have := foldSet_eval fs [] hnodup (sigFields fs) ws us [] hsub hsignodup (by simp) hf2 hlen
  simpa [initStruct, initValues] using this

/- ## Helper lemmas: value sequences of significant fields -/

theorem fieldValsB_forall (fs : List Field) :
    ∀ vs, fieldValsB fs vs = true →
      List.Forall₂ (fun f v => inRangeB f v = true) (sigFields fs) vs := by
  induction fs with
  | nil =>
    intro vs h
    have hvs : vs = [] := by simpa [fieldValsB, List.isEmpty_iff] using h
    subst hvs
    simp [sigFields]
  | cons f fs ih =>
    intro vs h
    by_cases hsig : is_significant f = true
    · rcases vs with _ | ⟨v, rest⟩
      · rw [fieldValsB, if_pos hsig] at h
        exact absurd h (by simp)
      · rw [fieldValsB, if_pos hsig, Bool.and_eq_true] at h
        simp only [sigFields, List.filter_cons, hsig, if_true]
        exact List.Forall₂.cons h.1 (ih rest h.2)
    · have h2 : fieldValsB fs vs = true := by
        rw [fieldValsB.eq_def] at h
        simpa [hsig] using h
      simp only [sigFields, List.filter_cons, hsig]
      simpa [sigFields] using ih vs h2

theorem seqOut_zip (fs : List Field) :
    ∀ vs, fieldValsB fs vs = true →
      seqOut fs vs = List.zipWith wireVal (sigFields fs) vs := by
  induction fs with
  | nil =>
    intro vs h
    simp [seqOut, sigFields]
  | cons f fs ih =>
    intro vs h
    by_cases hsig : is_significant f = true
    · rcases vs with _ | ⟨v, rest⟩
      · rw [fieldValsB, if_pos hsig] at h
        exact absurd h (by simp)
      · rw [fieldValsB, if_pos hsig, Bool.and_eq_true] at h
        simp only [seqOut, hsig, if_true, sigFields, List.filter_cons,
          List.zipWith_cons_cons]
        rw [ih rest h.2]
        simp [sigFields]
    · have h2 : fieldValsB fs vs = true := by
        rw [fieldValsB.eq_def] at h
        simpa [hsig] using h
      have hrw : seqOut (f :: fs) vs = seqOut fs vs := by
        rw [seqOut.eq_def]
        simp [hsig]
      rw [hrw]
      simp only [sigFields, List.filter_cons, hsig]
      simpa [sigFields] using ih vs h2

theorem map_fst_zipWith (sigs : List Field) :
    ∀ ws : List PyVal, ws.length = sigs.length →
      (List.zipWith (fun f w => (f.name, w)) sigs ws).map Prod.fst = sigs.map Field.name := by
  induction sigs with
  | nil =>
    intro ws h
    simp
  | cons f sigs ih =>
    intro ws h
    rcases ws with _ | ⟨w, ws⟩
    · simp at h
    · simp [ih ws (by simpa using h)]

theorem map_snd_zipWith (sigs : List Field) :
    ∀ ws : List PyVal, ws.length = sigs.length →
      (List.zipWith (fun f w => (f.name, w)) sigs ws).map Prod.snd = ws := by
  induction sigs with
  | nil =>
    intro ws h
    have hw : ws = [] := List.length_eq_zero.mp (by simpa using h)
    subst hw
    rfl
  | cons f sigs ih =>
    intro ws h
    rcases ws with _ | ⟨w, ws⟩
    · simp at h
    · simp [ih ws (by simpa using h)]

theorem to_seq_instOf (fs : List Field) (vals : List PyVal)
    (hlen : vals.length = (sigFields fs).length) :
    to_seq (instOf fs vals) = vals := by
  simp only [to_seq, instOf]
  exact map_snd_zipWith (sigFields fs) vals hlen

/- ## Helper lemmas: string stripping and ascii -/

theorem dropWhile_zero_replicate (k : Nat) (l : List Nat) :
    List.dropWhile (fun b => b == 0) (List.replicate k 0 ++ l)
      = List.dropWhile (fun b => b == 0) l := by
  induction k with
  | zero => simp
  | succ k ih => simp [List.replicate_succ, List.dropWhile, ih]

theorem rstrip0_append_zeros (l : List Nat) (k : Nat) :
    rstrip0 (l ++ List.replicate k 0) = rstrip0 l := by
  simp only [rstrip0, List.reverse_append, List.reverse_replicate]
  rw [dropWhile_zero_replicate]

theorem asciiOk_append_zeros (bs : List Nat) (k : Nat) (h : asciiOk bs = true) :
    asciiOk (bs ++ List.replicate k 0) = true := by
  simp only [asciiOk, List.all_eq_true, decide_eq_true_eq] at h ⊢
  intro b hb
  rcases List.mem_append.mp hb with hb | hb
  · exact h b hb
  · rw [(List.eq_of_mem_replicate hb)]
    norm_num

theorem rstrip0_sublist (l : List Nat) : List.Sublist (rstrip0 l) l := by
  have h1 : List.Sublist (l.reverse.dropWhile (fun b => b == 0)) l.reverse :=
    List.dropWhile_sublist _
  have h2 := List.Sublist.reverse h1
  simpa [rstrip0] using h2

theorem asciiOk_rstrip0 (l : List Nat) (h : asciiOk l = true) :
    asciiOk (rstrip0 l) = true := by
  simp only [asciiOk, List.all_eq_true, decide_eq_true_eq] at h ⊢
  intro b hb
  exact h b ((rstrip0_sublist l).subset hb)

/- ## Helper lemmas: re-setting a wire value restores the stored value -/

theorem setTransform_wire (f : Field) (v : PyVal)
    (hstr : f.isString = true → lastChar f.fmt = 's')
    (h : inRangeB f v = true) :
    setTransform f (wireVal f v) = Except.ok v := by
  by_cases hS : f.isString = true
  · have hs : lastChar f.fmt = 's' := hstr hS
    have hii : isIntChar 's' = false := by decide
    rcases v with _ | i | b | bs | t <;> simp [inRangeB, hs, hii] at h
    obtain ⟨hall, hrest⟩ := h
    by_cases hsn : f.strip_null = true
    · simp only [hS, if_true, hsn] at hrest
      obtain ⟨⟨ha, hl⟩, hr⟩ := hrest
      simp [wireVal, hs, setTransform, hS, toText, asciiDecode, asciiEncode,
        asciiOk_append_zeros bs (itemSize f.fmt - bs.length) ha, hsn,
        rstrip0_append_zeros, hr, ha]
    · simp only [hS, if_true, hsn, if_false] at hrest
      obtain ⟨⟨ha, hl⟩, hlen⟩ := hrest
      have hlen2 : bs.length = itemSize f.fmt := by simpa using hlen
      have hk : itemSize f.fmt - bs.length = 0 := by omega
      simp [wireVal, hs, hk, setTransform, hS, toText, asciiDecode, asciiEncode,
        ha, hsn]
  · simp only [setTransform, hS, if_false]
    rcases v with _ | i | b | bs | t <;> simp [wireVal]
    by_cases hs2 : lastChar f.fmt = 's'
    · have hii : isIntChar 's' = false := by decide
      simp [inRangeB, hs2, hii, hS] at h
      have hk : itemSize f.fmt - bs.length = 0 := by omega
      simp [hs2, hk]
    · simp [hs2]

theorem forall2_setTransform : ∀ (sigs : List Field) (vs : List PyVal),
    (∀ f ∈ sigs, f.isString = true → lastChar f.fmt = 's') →
    List.Forall₂ (fun f v => inRangeB f v = true) sigs vs →
    List.Forall₂ (fun (p : Field × PyVal) u => setTransform p.1 p.2 = Except.ok u)
      (sigs.zip (List.zipWith wireVal sigs vs)) vs := by
  intro sigs
  induction sigs with
  | nil =>
    intro vs hstr hf
    cases hf
    exact List.Forall₂.nil
  | cons f sigs ih =>
    intro vs hstr hf
    cases hf with
    | cons hin hrest =>
      simp only [List.zipWith_cons_cons, List.zip_cons_cons]
      exact List.Forall₂.cons
        (setTransform_wire f _ (hstr f (List.mem_cons_self _ _)) hin)
        (ih _ (fun g hg => hstr g (List.mem_cons_of_mem _ hg)) hrest)

/- ## Helper lemmas: Python value equality -/

theorem inRangeB_pyEq_refl (f : Field) (v : PyVal) (h : inRangeB f v = true) :
    pyEq v v = true := by
  rcases v with _ | i | b | bs | t | bits
  · simp [pyEq, PyVal.toNum]
  · simp [pyEq, PyVal.toNum]
  · simp [pyEq, PyVal.toNum]
  · simp [pyEq, PyVal.toNum]
  · simp [pyEq, PyVal.toNum]
  · have hnan : isNaN 11 52 bits = false := by
      simp only [inRangeB] at h
      split_ifs at h <;> simp at h <;> tauto
    simp [pyEq, floatEq64, hnan]

theorem valuesEq_refl_of (l : List (String × PyVal))
    (h : ∀ p ∈ l, pyEq p.2 p.2 = true) : valuesEq l l = true := by
  induction l with
  | nil => rfl
  | cons p l ih =>
    obtain ⟨k, v⟩ := p
    simp [valuesEq, h (k, v) (List.mem_cons_self _ _),
      ih (fun q hq => h q (List.mem_cons_of_mem _ hq))]

theorem zip_pyEq_refl (sigs : List Field) (vs : List PyVal)
    (hf : List.Forall₂ (fun f v => inRangeB f v = true) sigs vs) :
    ∀ p ∈ List.zipWith (fun f v => (f.name, v)) sigs vs, pyEq p.2 p.2 = true := by
  induction hf with
  | nil =>
    intro p hp
    simp at hp
  | cons h1 h2 ih =>
    intro p hp
    simp only [List.zipWith_cons_cons, List.mem_cons] at hp
    rcases hp with rfl | hp
    · exact inRangeB_pyEq_refl _ _ h1
    · exact ih p hp

theorem valuesEq_iff (l₁ : List (String × PyVal)) : ∀ l₂,
    (valuesEq l₁ l₂ = true ↔
      l₁.map Prod.fst = l₂.map Prod.fst ∧
      List.Forall₂ (fun a b => pyEq a b = true) (l₁.map Prod.snd) (l₂.map Prod.snd)) := by
  induction l₁ with
  | nil =>
    intro l₂
    rcases l₂ with _ | ⟨q, l₂⟩
    · simp [valuesEq]
    · simp [valuesEq]
  | cons p l₁ ih =>
    intro l₂
    rcases l₂ with _ | ⟨q, l₂⟩
    · simp [valuesEq]
    · obtain ⟨k1, v1⟩ := p
      obtain ⟨k2, v2⟩ := q
      simp only [valuesEq, Bool.and_eq_true, beq_iff_eq, List.map_cons,
        List.cons.injEq, List.forall₂_cons, ih l₂]
      tauto

/- ## Helper lemmas: layout width decomposition -/

theorem calcOffset_decomp (fs : List Field) :
    ∀ off, calcOffset fs off = off + sumSizes fs + sumPads fs off := by
  induction fs with
  | nil =>
    intro off
    simp [calcOffset, sumSizes, sumPads]
  | cons f fs ih =>
    intro off
    simp only [calcOffset, sumSizes, sumPads, List.map_cons, List.sum_cons]
    rw [ih]
    simp only [sumSizes]
    omega

/- ## Helper lemmas: sorting by birthday -/

theorem insertionSort_eq_of_strict (attrs L : List (String × Field))
    (hperm : attrs.Perm L)
    (hmono : L.Pairwise (fun a b => a.2.birthday < b.2.birthday)) :
    List.insertionSort birthLE attrs = L := by
  have hperm2 : (List.insertionSort birthLE attrs).Perm L :=
    (List.perm_insertionSort birthLE attrs).trans hperm
  have hsortedLE : List.Sorted birthLE (List.insertionSort birthLE attrs) :=
    List.sorted_insertionSort birthLE attrs
  have hneL : L.Pairwise (fun a b : String × Field => a.2.birthday ≠ b.2.birthday) :=
    hmono.imp (fun h => Nat.ne_of_lt h)
  have hne : (List.insertionSort birthLE attrs).Pairwise
      (fun a b => a.2.birthday ≠ b.2.birthday) :=
    (List.Perm.pairwise_iff (fun h he => h he.symm) hperm2).mpr hneL
  have hsortedLT : List.Pairwise (fun a b : String × Field => a.2.birthday < b.2.birthday)
      (List.insertionSort birthLE attrs) := by
    have hand := List.Pairwise.and hsortedLE hne
    exact hand.imp (fun h => lt_of_le_of_ne h.1 h.2)
  haveI : IsAntisymm (String × Field) (fun a b => a.2.birthday < b.2.birthday) :=
    ⟨fun a b h1 h2 => absurd h2 (Nat.lt_asymm h1)⟩
  exact List.eq_of_perm_of_sorted hperm2 hsortedLT hmono

theorem except_bind_ok {α β : Type} (a : α) (g : α → Except Err β) :
    (Except.ok a >>= g) = g a := rfl

theorem is_significant_rename (f : Field) (n : String) :
    is_significant { f with name := n } = is_significant f := rfl

theorem sigOf_bindNames (L : List (String × Field)) :
    sigOf (bindNames L) = bindNames (L.filter (fun p => is_significant p.2)) := by
  induction L with
  | nil => rfl
  | cons p L ih =>
    obtain ⟨n, f⟩ := p
    simp only [bindNames, List.map_cons, sigOf, List.filter_cons, is_significant_rename]
    by_cases hs : is_significant f = true
    · simp only [if_pos hs, List.map_cons]
      simp only [sigOf, bindNames] at ih
      rw [ih]
    · simp only [if_neg hs]
      simp only [sigOf, bindNames] at ih
      exact ih

/- ## Claim theorems -/

/-- C1 counterexample: take the structure type with the single field
`s = StringField(4)` (`strip_null` off) and construct an instance with
`s` set to the two-byte text `hi` — an allowed in-range value, since the
field's docstring promises that shorter strings are padded with null
bytes.  Packing null-pads the value to 4 bytes, and unpacking stores
those 4 bytes back through `__set__`, so the round-tripped instance
holds `hi\x00\x00` while the original holds `hi`, and
`unpack(pack(x)) == x` evaluates to `False`, refuting the claim as
stated. -/
theorem C1_counterexample :
    (do
      let i ← initStruct [sf4] [("s", PyVal.str [104, 105])]
      let packed ← pack i
      let i2 ← unpack [sf4] packed
      pure (instEq i2 (PyObj.inst i))) = Except.ok false := by decide

/-- C1 (amended): for every structure type whose field names are
distinct and whose `StringField`s carry byte-run (`s`) formats — as the
`StringField` constructor guarantees — and every instance whose
significant fields all hold in-range values of exactly the declared wire
width (`inRangeB`: bools for `?`, single bytes for `c`, in-range
integers for the integer codes, and byte-run values that either fill the
declared width exactly or, for `strip_null` string fields, carry no
trailing null byte), unpacking the bytes produced by packing the
instance yields an instance equal to the original.  The width-exactness
condition is the amendment the counterexample forces: shorter byte-run
values come back null-padded and fail the round trip. -/
theorem C1_roundtrip_amended (fs : List Field) (vals : List PyVal)
    (hnodup : (fs.map Field.name).Nodup)
    (hstr : ∀ f ∈ fs, f.isString = true → lastChar f.fmt = 's')
    (hvals : fieldValsB fs vals = true) :
    (do
      let packed ← pack (instOf fs vals)
      let inst2 ← unpack fs packed
      pure (instEq inst2 (PyObj.inst (instOf fs vals)))) = Except.ok true := by
  have hforall := fieldValsB_forall fs vals hvals
  have hlen : vals.length = (sigFields fs).length := hforall.length_eq.symm
  obtain ⟨out, hpack, hlenout, hunp⟩ := pack_unpack_core fs vals 0 hvals
  have hpack2 : pack (instOf fs vals) = Except.ok out := by
    rw [pack, to_seq_instOf fs vals hlen]
    exact hpack
  have hsize : out.length = layoutSize fs := by
    rw [layoutSize]
    omega
  have hstr2 : ∀ f ∈ sigFields fs, f.isString = true → lastChar f.fmt = 's' :=
    fun f hf => hstr f (List.mem_of_mem_filter hf)
  have hzip := seqOut_zip fs vals hvals
  have hws_len : (List.zipWith wireVal (sigFields fs) vals).length
      = (sigFields fs).length := by
    rw [List.length_zipWith]
    omega
  have hdict : dictOf (List.zipWith (fun f v => (f.name, v)) (sigFields fs)
        (List.zipWith wireVal (sigFields fs) vals))
      = List.zipWith (fun f v => (f.name, v)) (sigFields fs)
          (List.zipWith wireVal (sigFields fs) vals) := by
    apply dictOf_nodup
    rw [map_fst_zipWith (sigFields fs) _ hws_len]
    exact sig_names_nodup fs hnodup
  have hf2 := forall2_setTransform (sigFields fs) vals hstr2 hforall
  have hinit := initStruct_eval fs (List.zipWith wireVal (sigFields fs) vals) vals hnodup
    hf2 hws_len
  have hunpack : unpack fs out = Except.ok (instOf fs vals) := by
    rw [unpack, structUnpack, if_pos hsize, hunp]
    show from_seq fs (seqOut fs vals) = Except.ok (instOf fs vals)
    rw [from_seq, hzip, hdict]
    exact hinit
  have hrefl := valuesEq_refl_of _ (zip_pyEq_refl (sigFields fs) vals hforall)
  simp only [hpack2, except_bind_ok, hunpack]
  simp [instEq, instOf, pure, Except.pure, hrefl]

/-- Witness for C1 (amended): the docstring's `Foo` structure extended
with a double field (`a = Field('L')`, `dummy = Padding(12)`,
`b = Field('B')`, `z = Field('d')`) with `a = 0x1234`, `b = 0xab` and
`z = 1.5` (pattern 0x3FF8000000000000) satisfies the hypotheses and
round-trips. -/
theorem C1_roundtrip_amended_witness :
    ((fooDFields.map Field.name).Nodup ∧
      (∀ f ∈ fooDFields, f.isString = true → lastChar f.fmt = 's') ∧
      fieldValsB fooDFields
        [PyVal.int 4660, PyVal.int 171, PyVal.float 4609434218613702656] = true) ∧
    (do
      let packed ← pack (instOf fooDFields
        [PyVal.int 4660, PyVal.int 171, PyVal.float 4609434218613702656])
      let inst2 ← unpack fooDFields packed
      pure (instEq inst2 (PyObj.inst (instOf fooDFields
        [PyVal.int 4660, PyVal.int 171, PyVal.float 4609434218613702656]))))
      = Except.ok true :=
  ⟨⟨by decide, by decide, by decide⟩,
    C1_roundtrip_amended fooDFields
      [PyVal.int 4660, PyVal.int 171, PyVal.float 4609434218613702656]
      (by decide) (by decide) (by decide)⟩

/-- C2 counterexample: two distinct one-field structure types `A` and
`B`, each declaring `x = Field('B')` (distinct `Field` objects, hence
distinct birthdays and distinct types), yield instances with `x = 1`
that `__eq__` reports equal — the method only checks
`isinstance(other, NamedStruct)` and compares `_values`, never the
concrete structure type — refuting "instances of different structure
types are never equal". -/
theorem C2_counterexample :
    instEq ⟨[axField], [("x", PyVal.int 1)], []⟩
        (PyObj.inst ⟨[bxField], [("x", PyVal.int 1)], []⟩) = true ∧
    ([axField] : List Field) ≠ [bxField] := by decide

/-- C2 (amended): equality between structure instances holds iff the
other operand is a `NamedStruct` instance of any structure type and the
two `_values` ordered mappings agree — same keys in the same order and
`==`-equal values; a non-`NamedStruct` operand is never equal.  In
particular instances of different structure types are equal whenever
their value mappings coincide. -/
theorem C2_equality_amended (i o : Inst) :
    (instEq i (PyObj.inst o) = true ↔
      i.values.map Prod.fst = o.values.map Prod.fst ∧
      List.Forall₂ (fun a b => pyEq a b = true)
        (i.values.map Prod.snd) (o.values.map Prod.snd)) ∧
    instEq i PyObj.nonStruct = false := by
  constructor
  · exact valuesEq_iff i.values o.values
  · rfl

/-- C3: for fields declared in the order given by a list `L` — so that
their birthdays strictly increase along `L`, as the global creation
counter guarantees — and for every iteration order `attrs` (any
permutation of `L`) in which the class-attribute mapping hands the
fields to `HasFields.__new__`, the compiled field table equals the
name-bound declaration list, and both the layout format sequence and the
significant-field subsequence list the fields in declaration order. -/
theorem C3_declaration_order (attrs L : List (String × Field))
    (hperm : attrs.Perm L)
    (hmono : L.Pairwise (fun a b => a.2.birthday < b.2.birthday)) :
    buildFields attrs = bindNames L ∧
    layoutFmts (buildFields attrs) = L.map (fun p => p.2.fmt) ∧
    sigOf (buildFields attrs) = bindNames (L.filter (fun p => is_significant p.2)) := by
  have hsort := insertionSort_eq_of_strict attrs L hperm hmono
  refine ⟨?_, ?_, ?_⟩
  · rw [buildFields, hsort]
  · rw [buildFields, hsort]
    simp [layoutFmts, bindNames]
  · rw [buildFields, hsort]
    exact sigOf_bindNames L

/-- Witness for C3: the `Foo` fields declared in order `a`, `dummy`,
`b` (birthdays 0, 1, 2) handed to the type builder in the scrambled
iteration order `b`, `a`, `dummy` still compile to the declaration
order. -/
theorem C3_declaration_order_witness :
    (List.Perm [("b", fooB), ("a", fooA), ("dummy", fooDummy)]
        [("a", fooA), ("dummy", fooDummy), ("b", fooB)] ∧
      List.Pairwise (fun a b => a.2.birthday < b.2.birthday)
        [("a", fooA), ("dummy", fooDummy), ("b", fooB)]) ∧
    buildFields [("b", fooB), ("a", fooA), ("dummy", fooDummy)]
      = bindNames [("a", fooA), ("dummy", fooDummy), ("b", fooB)] :=
  ⟨⟨by decide, by decide⟩,
    (C3_declaration_order [("b", fooB), ("a", fooA), ("dummy", fooDummy)]
      [("a", fooA), ("dummy", fooDummy), ("b", fooB)] (by decide) (by decide)).1⟩

/-- C4: reading a string field does not return the decoded text.
`StringField.__get__` evaluates
`super().__get__(obj, type).decode(self._encoding)` but lacks a `return`
statement, so the descriptor returns `None`: on the stored bytes `hi`
the code yields `None` while the spec's get contract (modelled by
`StringField_get_spec`) yields the decoded text `hi`. -/
theorem C4_get_returns_none :
    StringField_get (PyVal.bytes [104, 105]) = Except.ok PyVal.none ∧
    StringField_get_spec (PyVal.bytes [104, 105]) = Except.ok (PyVal.str [104, 105]) ∧
    PyVal.none ≠ PyVal.str [104, 105] := by decide

/-- C5 counterexample: for `StringField(4, strip_null=True)`, setting
the text value `hi\x00` stores the 2-byte run `hi`, not the encoded
3-byte value: `__set__` strips trailing nulls before storing whenever
`strip_null` is enabled, refuting "trailing null bytes are ... never
[stripped] as part of a set". -/
theorem C5_counterexample :
    setTransform sf4strip (PyVal.str [104, 105, 0]) = Except.ok (PyVal.bytes [104, 105]) ∧
    PyVal.bytes [104, 105] ≠ PyVal.bytes [104, 105, 0] := by decide

/-- C5 (amended): setting a string field from text (or bytes) encodes
the value and, when `strip_null` is enabled, strips trailing null bytes
before storing; only with `strip_null` disabled is the encoded value
stored as-is. -/
theorem C5_set_amended (f : Field) (hS : f.isString = true) (s : List Nat)
    (h : asciiOk s = true) :
    setTransform f (PyVal.str s)
        = Except.ok (PyVal.bytes (if f.strip_null then rstrip0 s else s)) ∧
    setTransform f (PyVal.bytes s)
        = Except.ok (PyVal.bytes (if f.strip_null then rstrip0 s else s)) := by
  constructor <;>
    by_cases hsn : f.strip_null = true <;>
      simp [setTransform, hS, toText, asciiDecode, asciiEncode, hsn, h,
        asciiOk_rstrip0 s h]

/-- Witness for C5 (amended): `StringField(4, strip_null=True)` set to
`hi\x00` stores `rstrip0` of the encoding. -/
theorem C5_set_amended_witness :
    (sf4strip.isString = true ∧ asciiOk [104, 105, 0] = true) ∧
    setTransform sf4strip (PyVal.str [104, 105, 0])
      = Except.ok (PyVal.bytes
          (if sf4strip.strip_null then rstrip0 [104, 105, 0] else [104, 105, 0])) :=
  ⟨⟨by decide, by decide⟩,
    (C5_set_amended sf4strip (by decide) [104, 105, 0] (by decide)).1⟩

/-- C6: assigning a too-long value to a fixed-width string field raises
no length error — `StringField.__set__` performs no length check — and
packing silently truncates: with `s = StringField(2)` set to the 4-byte
text `abcd`, the stored value is all 4 bytes and `pack()` emits exactly
`ab`, silently dropping data instead of failing. -/
theorem C6_silent_truncation :
    (do
      let i ← initStruct [sf2] [("s", PyVal.str [97, 98, 99, 100])]
      pack i) = Except.ok [97, 98] ∧
    setTransform sf2 (PyVal.str [97, 98, 99, 100])
      = Except.ok (PyVal.bytes [97, 98, 99, 100]) := by decide

/-- C7: constructing with a name that matches no field raises no error:
`NamedStruct.__init__` just calls `setattr`, and an unknown name
silently becomes a plain instance attribute, leaving the significant
field unset — `Qux(bogus=1)` succeeds instead of failing with an
unknown-field error. -/
theorem C7_unknown_kwarg_accepted :
    initStruct [quxA] [("bogus", PyVal.int 1)] =
      Except.ok ⟨[quxA], [("a", PyVal.none)], [("bogus", PyVal.int 1)]⟩ := by decide

/-- C8: packing an instance whose only significant field — a bool field
`flag = Field('?')` — is still at its `None` sentinel does not fail: the
`?` format packs the truthiness of any object, so `None` silently packs
as the zero byte, refuting "pack() fails ... and never silently emits
zero (or other) bytes for the unset field". -/
theorem C8_unset_bool_packs_zero :
    initStruct [flagField] [] = Except.ok ⟨[flagField], [("flag", PyVal.none)], []⟩ ∧
    (do
      let i ← initStruct [flagField] []
      pack i) = Except.ok [0] := by decide

/-- C9: the width query on a byte-run field does not return the declared
width: `Field.__len__` evaluates `int(self._fmt[-1])` — the format's
last character, which is the format letter — so for the 12-byte run
`12s` it raises `ValueError` instead of returning 12 (the source plainly
meant `self._fmt[:-1]`); the scalar half of the claim does hold: on
format `L` it raises `TypeError`. -/
theorem C9_len_valueerror :
    field_len ['1', '2', 's'] = Except.error Err.valueError ∧
    field_len ['L'] = Except.error Err.typeError := by decide

/-- C10 counterexample: `a = Field('B')` followed by `b = Field('I')`
compiles to a layout of 8 bytes, not `1 + 4 = 5`: `struct.Struct` runs
in native mode and inserts 3 alignment padding bytes before the 4-byte
`I`, and the packed buffer is those 8 bytes with the padding zeros
inserted, refuting "with no extra bytes inserted".  Likewise `Field('B')`
followed by `Field('d')` compiles to 16 bytes (7 alignment bytes before
the 8-byte double), not `1 + 8 = 9`. -/
theorem C10_counterexample :
    layoutSize [mixB, mixI] = 8 ∧ sumSizes [mixB, mixI] = 5 ∧
    layoutSize [mixB, mixI] ≠ sumSizes [mixB, mixI] ∧
    (do
      let i ← initStruct [mixB, mixI] [("a", PyVal.int 1), ("b", PyVal.int 2)]
      pack i) = Except.ok [1, 0, 0, 0, 2, 0, 0, 0] ∧
    layoutSize [mixB, fooD] = 16 ∧ sumSizes [mixB, fooD] = 9 := by decide

/-- C10 (amended): for every structure type over the spec's supported
format set (`validFmt`), the total byte width of the compiled layout
equals the sum of the individual widths of all its fields plus the
native alignment padding `struct` inserts before misaligned items;
whenever no alignment padding is needed (`sumPads fs 0 = 0`, e.g. every
field offset already aligned), it equals the plain sum of the field
widths. -/
theorem C10_layout_width_amended (fs : List Field)
    (_hvf : ∀ f ∈ fs, validFmt f.fmt = true) :
    layoutSize fs = sumSizes fs + sumPads fs 0 ∧
    (sumPads fs 0 = 0 → layoutSize fs = sumSizes fs) := by
  have h := calcOffset_decomp fs 0
  constructor
  · rw [layoutSize]
    omega
  · intro h0
    rw [layoutSize]
    omega

/-- Witness for C10 (amended): the `Foo` layout (`L`, `12x`, `B`) is
made of valid formats, needs no alignment padding, and its total width
21 is exactly the sum of the field widths 8 + 12 + 1. -/
theorem C10_layout_width_amended_witness :
    ((∀ f ∈ fooFields, validFmt f.fmt = true) ∧ sumPads fooFields 0 = 0) ∧
    layoutSize fooFields = sumSizes fooFields :=
  ⟨⟨by decide, by decide⟩,
    (C10_layout_width_amended fooFields (by decide)).2 (by decide)⟩

end NS

